import Mathlib

/-!
Shallow embedding of the WebSocket hub of the Streaming-platform-API
repository (src/internal/websocket/client.go) and proofs about it.

Modelling conventions:
* A `*Client` pointer is modelled by an opaque identifier (`ClientId := Nat`).
* Go maps are modelled by association lists; `setL`/`eraseKey`/`lookupL`
  implement insert-or-replace / delete / lookup.  Go map-backed sets are
  modelled by duplicate-free lists built with `insertSet`.
* The client's buffered `send` channel is modelled by the list of pending
  messages plus a closed flag (`closedBufs`); capacity is `sendBufferSize`.
* `map[string]interface{}` payloads are opaque (`String`), and the JSON
  marshalling step of `broadcastMessage` is treated as the identity on the
  structured message (it is injective and never fails on these payloads).
* `time.Now()` timestamps are explicit `Nat` parameters.
* The Go counters are carried as `Int` in the state for the per-step
  properties; where cumulative arithmetic on the `int32` field
  `ActiveConnections` matters, its two's-complement wrap is modelled
  exactly by `wrap32` and the counter evolution `runActive32`.
* The hub's single control-loop goroutine processes one control message at
  a time; a channel send `h.Unregister <- client` executed from inside that
  same loop can never be received, so it is modelled as the `blocked`
  outcome of a broadcast, and a select-send on a closed channel (a Go
  panic) as the `panicked` outcome.
-/

namespace StreamHub

set_option maxRecDepth 16384

/-- A structured WebSocket message (struct `Message` in client.go):
`Type`, `Room` (empty string when absent, as in Go's zero value with
`omitempty`), `Data` (opaque payload) and `Timestamp`. -/
structure Message where
  mtype : String
  room : String
  data : String
  timestamp : Nat
deriving DecidableEq

/-- Identifier standing for a `*Client` pointer. -/
abbrev ClientId := Nat

/-- Lookup in an association list (Go map read `m[k]`). -/
def lookupL {κ β : Type} [DecidableEq κ] : List (κ × β) → κ → Option β
  | [], _ => none
  | (k, v) :: tl, k' => if k = k' then some v else lookupL tl k'

/-- Delete a key from an association list (Go `delete(m, k)`). -/
def eraseKey {κ β : Type} [DecidableEq κ] (k : κ) : List (κ × β) → List (κ × β)
  | [] => []
  | p :: tl => if p.1 = k then eraseKey k tl else p :: eraseKey k tl

/-- Delete an element from a list-as-set (Go `delete(m, k)` on a map used
as a set). -/
def eraseAll {α : Type} [DecidableEq α] (a : α) : List α → List α
  | [] => []
  | b :: tl => if b = a then eraseAll a tl else b :: eraseAll a tl

/-- Insert or replace a key in an association list (Go `m[k] = v`). -/
def setL {κ β : Type} [DecidableEq κ] (k : κ) (v : β) (l : List (κ × β)) : List (κ × β) :=
  eraseKey k l ++ [(k, v)]

/-- Add an element to a list-as-set (Go `m[k] = true` on a map used as a set). -/
def insertSet {α : Type} [DecidableEq α] (a : α) (l : List α) : List α :=
  if a ∈ l then l else a :: l

/-- The hub state: struct `Hub` together with the hub-owned parts of each
`Client` (its membership cache `rooms` and its `send` buffer) and the
`HubMetrics` counters.

* `clients`    — Go `h.clients` (set of registered clients);
* `rooms`      — Go `h.rooms` (room name → member set);
* `caches`     — each client's `c.rooms` membership cache;
* `bufs`       — each client's pending `send` buffer contents;
* `closedBufs` — clients whose `send` channel has been closed;
* `active`, `totalConns`, `msgsSent`, `roomCounts` — the `HubMetrics`
  fields `ActiveConnections`, `TotalConnections`, `TotalMessagesSent`,
  `RoomCounts`. -/
structure HubState where
  clients : List ClientId
  rooms : List (String × List ClientId)
  caches : List (ClientId × List String)
  bufs : List (ClientId × List Message)
  closedBufs : List ClientId
  active : Int
  totalConns : Int
  msgsSent : Int
  roomCounts : List (String × Int)
deriving DecidableEq

/-- Member set of a room (Go `h.rooms[room]`, absent map entry = empty). -/
def members (s : HubState) (room : String) : List ClientId :=
  (lookupL s.rooms room).getD []

/-- A client's membership cache (Go `c.rooms`). -/
def cacheOf (s : HubState) (c : ClientId) : List String :=
  (lookupL s.caches c).getD []

/-- A client's pending outbound buffer (contents of its `send` channel). -/
def bufOf (s : HubState) (c : ClientId) : List Message :=
  (lookupL s.bufs c).getD []

/-- `sendBufferSize` constant from client.go. -/
def sendBufferSize : Nat := 256

/-- `registerClient` from client.go: `h.clients[client] = true`,
`ActiveConnections++`, `TotalConnections++`. -/
def registerClient (c : ClientId) (s : HubState) : HubState :=
  { s with clients := insertSet c s.clients,
           active := s.active + 1,
           totalConns := s.totalConns + 1 }

/-- `removeFromRoom` from client.go: if the room exists, delete the client
from the member set and from the client's cache, decrement
`RoomCounts[room]`, and delete the room (and its `RoomCounts` entry)
when the member set became empty. -/
def removeFromRoom (room : String) (c : ClientId) (s : HubState) : HubState :=
  match lookupL s.rooms room with
  | none => s
  | some mems =>
      let mems' := eraseAll c mems
      let caches' := setL c (eraseAll room (cacheOf s c)) s.caches
      let rc' := setL room ((lookupL s.roomCounts room).getD 0 - 1) s.roomCounts
      if mems'.isEmpty then
        { s with rooms := eraseKey room s.rooms,
                 caches := caches',
                 roomCounts := eraseKey room rc' }
      else
        { s with rooms := setL room mems' s.rooms,
                 caches := caches',
                 roomCounts := rc' }

/-- `unregisterClient` from client.go: only if the client is registered,
remove it from every room of its cache, delete it from `h.clients`,
close its `send` channel and decrement `ActiveConnections`. -/
def unregisterClient (c : ClientId) (s : HubState) : HubState :=
  if c ∈ s.clients then
    let s1 := (cacheOf s c).foldl (fun t r => removeFromRoom r c t) s
    { s1 with clients := eraseAll c s1.clients,
              closedBufs := insertSet c s1.closedBufs,
              active := s1.active - 1 }
  else s

/-- `JoinRoom` from client.go: add the client to the room's member set
(creating the entry if absent), record the room in the client's cache, and
increment `RoomCounts[room]` (unconditionally, even if already a member). -/
def joinRoom (room : String) (c : ClientId) (s : HubState) : HubState :=
  { s with rooms := setL room (insertSet c (members s room)) s.rooms,
           caches := setL c (insertSet room (cacheOf s c)) s.caches,
           roomCounts := setL room ((lookupL s.roomCounts room).getD 0 + 1) s.roomCounts }

/-- `LeaveRoom` from client.go (delegates to `removeFromRoom`). -/
def leaveRoom (room : String) (c : ClientId) (s : HubState) : HubState :=
  removeFromRoom room c s

/-- Target resolution of `broadcastMessage`: the room's member set when
`message.Room != ""`, otherwise all registered clients. -/
def targetClients (m : Message) (s : HubState) : List ClientId :=
  if m.room ≠ "" then members s m.room else s.clients

/-- Outcome of one `broadcastMessage` step of the control loop.
`ok` – fan-out completed; `blocked` – the loop hit a full buffer and is
stuck forever on `h.Unregister <- client` (the only receiver of that
unbuffered channel is the control loop itself); `panicked` – select-send
hit a closed channel.  Both failure outcomes carry the state reached so
far and the offending client. -/
inductive BResult where
  | ok (s : HubState)
  | blocked (s : HubState) (c : ClientId)
  | panicked (s : HubState) (c : ClientId)
deriving DecidableEq

/-- The state a broadcast outcome left the hub in. -/
def BResult.state : BResult → HubState
  | .ok s => s
  | .blocked s _ => s
  | .panicked s _ => s

/-- The successful select branch `client.send <- messageBytes` plus
`h.metrics.TotalMessagesSent++`. -/
def enqueue (m : Message) (c : ClientId) (s : HubState) : HubState :=
  { s with bufs := setL c (bufOf s c ++ [m]) s.bufs,
           msgsSent := s.msgsSent + 1 }

/-- The fan-out loop of `broadcastMessage`: for each target in order,
`select { case client.send <- bytes: ...; default: h.Unregister <- client }`.
A send on a closed channel panics; with buffer space the message is
enqueued and `TotalMessagesSent++`; with a full buffer the default branch
runs `h.Unregister <- client`, which never completes (see `BResult`). -/
def fanout (m : Message) : List ClientId → HubState → BResult
  | [], s => .ok s
  | c :: rest, s =>
      if c ∈ s.closedBufs then .panicked s c
      else if (bufOf s c).length < sendBufferSize then
        fanout m rest (enqueue m c s)
      else .blocked s c

/-- `broadcastMessage` from client.go: resolve targets, then fan out. -/
def broadcastMessage (m : Message) (s : HubState) : BResult :=
  fanout m (targetClients m s) s

/-- The message constructed by `BroadcastToRoom(room, messageType, data)`. -/
def broadcastToRoomMsg (room mtype data : String) (ts : Nat) : Message :=
  ⟨mtype, room, data, ts⟩

/-- The message constructed by `BroadcastToAll(messageType, data)`
(its `Room` field is the zero value `""`). -/
def broadcastToAllMsg (mtype data : String) (ts : Nat) : Message :=
  ⟨mtype, "", data, ts⟩

/-- `shutdown` from client.go: close every registered client's `send`
channel, then reset `h.clients` and `h.rooms` to fresh empty maps.  The
metrics (in particular `ActiveConnections`) are not touched. -/
def shutdown (s : HubState) : HubState :=
  { s with closedBufs := s.clients.foldl (fun l c => insertSet c l) s.closedBufs,
           clients := [],
           rooms := [] }

/-- `GetRoomCount` from client.go: size of the member set, 0 if absent. -/
def getRoomCount (room : String) (s : HubState) : Nat :=
  (members s room).length

/-- `GetTotalClients` from client.go. -/
def getTotalClients (s : HubState) : Nat :=
  s.clients.length

/-- `IsInRoom` from client.go: membership test on the client's own cache. -/
def isInRoom (s : HubState) (c : ClientId) (room : String) : Bool :=
  decide (room ∈ cacheOf s c)

/-- `GetRooms` from client.go: the rooms in the client's own cache. -/
def getRooms (s : HubState) (c : ClientId) : List String :=
  cacheOf s c

/-- The control operations that mutate hub state: the `Register`,
`Unregister` and `Broadcast` channel messages processed by `Run`, plus the
lock-protected direct calls `JoinRoom` and `LeaveRoom`. -/
inductive Op where
  | reg (c : ClientId)
  | unreg (c : ClientId)
  | join (room : String) (c : ClientId)
  | leave (room : String) (c : ClientId)
  | bcast (m : Message)
deriving DecidableEq

/-- Effect of one control operation on the hub state (a broadcast leaves
the hub in the state its outcome carries). -/
def applyOp : Op → HubState → HubState
  | .reg c, s => registerClient c s
  | .unreg c, s => unregisterClient c s
  | .join room c, s => joinRoom room c s
  | .leave room c, s => leaveRoom room c s
  | .bcast m, s => (broadcastMessage m s).state

/-- The state of a hub fresh from `NewHub`. -/
def initState : HubState :=
  ⟨[], [], [], [], [], 0, 0, 0, []⟩

/-- Process a sequence of control operations. -/
def runOps (ops : List Op) (s : HubState) : HubState :=
  ops.foldl (fun t o => applyOp o t) s

/-- States reachable from a fresh hub by control operations. -/
def Reachable (s : HubState) : Prop :=
  ∃ ops : List Op, s = runOps ops initState

/-- Events seen by the `Run` loop: a control operation, or the context
cancellation (`ctx.Done()`). -/
inductive HEvent where
  | ctl (o : Op)
  | cancel
deriving DecidableEq

/-- The `Run` loop: on cancellation it calls `shutdown` and returns, so
any later events are never processed. -/
def runLoop : List HEvent → HubState → HubState
  | [], s => s
  | HEvent.cancel :: _, s => shutdown s
  | HEvent.ctl o :: tl, s => runLoop tl (applyOp o s)

/-- Number of `Register` messages in an operation sequence. -/
def countReg : List Op → Int
  | [] => 0
  | Op.reg _ :: tl => 1 + countReg tl
  | _ :: tl => countReg tl

/-- Number of `Unregister` messages whose argument was registered at the
moment the message was processed, along a run starting in `s`. -/
def countEffUnreg : List Op → HubState → Int
  | [], _ => 0
  | Op.unreg c :: tl, s =>
      (if c ∈ s.clients then 1 else 0) + countEffUnreg tl (applyOp (Op.unreg c) s)
  | o :: tl, s => countEffUnreg tl (applyOp o s)

/-- Two's-complement reduction into the `int32` range
`[-2147483648, 2147483648)`: the value the Go `int32` field
`ActiveConnections` holds when its mathematical value is `x`. -/
def wrap32 (x : Int) : Int :=
  (x + 2147483648) % 4294967296 - 2147483648

/-- The `int32` `ActiveConnections` counter after processing the
operations from hub state `s` with current counter value `a`:
`registerClient` performs a wrapping `ActiveConnections++`, an effective
`unregisterClient` a wrapping `ActiveConnections--`, and the other
operations leave the counter alone.  The registered-or-not guard is read
from the exact registry model, which the counter value never
influences. -/
def runActive32 : List Op → HubState → Int → Int
  | [], _, a => a
  | Op.reg c :: tl, s, a =>
      runActive32 tl (applyOp (Op.reg c) s) (wrap32 (a + 1))
  | Op.unreg c :: tl, s, a =>
      runActive32 tl (applyOp (Op.unreg c) s)
        (if c ∈ s.clients then wrap32 (a - 1) else a)
  | o :: tl, s, a => runActive32 tl (applyOp o s) a

/-!
### Heap model for the metrics snapshot

`GetMetrics` copies the scalar counters by value and builds a *fresh*
`RoomCounts` map, copying the live entries.  To state that the snapshot
shares no mutable structure with the live metrics, the `RoomCounts` maps
live in an explicit store of cells indexed by allocation order: the hub's
`HubMetrics` holds the cell `liveId`, and `make(map[string]int)` allocates
a fresh cell at the end of the store.
-/

/-- A heap of `map[string]int` values. -/
abbrev CellStore := List (List (String × Int))

/-- Read a map cell (out-of-range reads the empty map). -/
def readCell (st : CellStore) (i : Nat) : List (String × Int) :=
  st.getD i []

/-- Overwrite a map cell in place. -/
def writeCell (i : Nat) (v : List (String × Int)) (st : CellStore) : CellStore :=
  st.set i v

/-- The live `HubMetrics` value: scalar counters plus a reference to its
`RoomCounts` map cell. -/
structure MetricsLive where
  store : CellStore
  liveId : Nat
  totalConnections : Int
  activeConnections : Int
  totalMessagesSent : Int
  totalMessagesRecv : Int
  lastMessageTime : Nat
deriving DecidableEq

/-- The `*HubMetrics` value returned by `GetMetrics`: copied scalars and a
reference to the freshly allocated `RoomCounts` copy. -/
structure MetricsCopy where
  totalConnections : Int
  activeConnections : Int
  totalMessagesSent : Int
  totalMessagesRecv : Int
  lastMessageTime : Nat
  roomCountsId : Nat
deriving DecidableEq

/-- `GetMetrics` from client.go: copy the five scalar fields, allocate a
fresh map (`make(map[string]int)`) and copy every live `RoomCounts` entry
into it; returns the copy and the heap extended by the new cell. -/
def getMetrics (h : MetricsLive) : MetricsCopy × MetricsLive :=
  (⟨h.totalConnections, h.activeConnections, h.totalMessagesSent,
    h.totalMessagesRecv, h.lastMessageTime, h.store.length⟩,
   { h with store := h.store ++ [readCell h.store h.liveId] })

/-- The effects of the hub operations on the live metrics:
register (`ActiveConnections++`, `TotalConnections++`), unregister
(`ActiveConnections--`), join (`RoomCounts[room]++`), leave
(`RoomCounts[room]--`, deleting the entry when the room emptied),
broadcast (`TotalMessagesSent` grows, `LastMessageTime` set), and an
inbound frame (`TotalMessagesRecv++`). -/
inductive MOp where
  | regFx
  | unregFx
  | joinFx (room : String)
  | leaveFx (room : String) (emptied : Bool)
  | bcastFx (sent : Nat) (t : Nat)
  | recvFx
deriving DecidableEq

/-- Apply a metrics effect to the live metrics: scalar effects update the
scalar fields, room effects write the live `RoomCounts` cell in place. -/
def applyMOp : MOp → MetricsLive → MetricsLive
  | .regFx, h =>
      { h with activeConnections := h.activeConnections + 1,
               totalConnections := h.totalConnections + 1 }
  | .unregFx, h =>
      { h with activeConnections := h.activeConnections - 1 }
  | .joinFx room, h =>
      let m := readCell h.store h.liveId
      let m' := setL room ((lookupL m room).getD 0 + 1) m
      { h with store := writeCell h.liveId m' h.store }
  | .leaveFx room emptied, h =>
      let m := readCell h.store h.liveId
      let m' := setL room ((lookupL m room).getD 0 - 1) m
      { h with store := writeCell h.liveId (if emptied then eraseKey room m' else m') h.store }
  | .bcastFx sent t, h =>
      { h with totalMessagesSent := h.totalMessagesSent + sent,
               lastMessageTime := t }
  | .recvFx, h =>
      { h with totalMessagesRecv := h.totalMessagesRecv + 1 }

/-!
### Concrete states used by the counterexamples and the code-bug evidence
-/

/-- A filler message (one of the 256 already queued on a saturated buffer). -/
def fillMsg : Message := ⟨"fill", "", "d", 0⟩

/-- Hub with clients 0 and 1 registered; client 0's outbound buffer holds
256 pending messages (full), client 1's is empty. -/
def fullBufHub : HubState :=
  ⟨[0, 1], [], [], [(0, List.replicate 256 fillMsg)], [], 2, 2, 0, []⟩

/-- Hub with client 0 registered and member of room "s1", with a full
outbound buffer. -/
def fullBufRoomHub : HubState :=
  ⟨[0], [("s1", [0])], [(0, ["s1"])], [(0, List.replicate 256 fillMsg)],
   [], 1, 1, 0, [("s1", 1)]⟩

/-- Hub reached by registering client 0 and joining it to room "s1". -/
def scenarioHub : HubState :=
  runOps [Op.reg 0, Op.join "s1" 0] initState

/-- A concrete live metrics value: one allocated `RoomCounts` cell holding
`a ↦ 1`, one connection registered. -/
def liveM : MetricsLive :=
  ⟨[[("a", 1)]], 0, 1, 1, 0, 0, 0⟩

/-- Well-formedness of the room bookkeeping: every room present in the
index has a nonempty member set, and a client is in a room's member set
exactly when the room is in the client's membership cache. -/
def RoomsWF (s : HubState) : Prop :=
  (∀ R ms, lookupL s.rooms R = some ms → ms ≠ []) ∧
  (∀ c R, c ∈ members s R ↔ R ∈ cacheOf s c)

/-- Well-formedness of the hub state: duplicate-free client registry,
well-formed rooms, and the `ActiveConnections` counter dominating the
registry size. -/
def HubWF (s : HubState) : Prop :=
  s.clients.Nodup ∧ RoomsWF s ∧ (s.clients.length : Int) ≤ s.active

/-!
### Lemmas about the map and set primitives
-/

theorem lookupL_eraseKey_self {κ β : Type} [DecidableEq κ] (k : κ) (l : List (κ × β)) :
    lookupL (eraseKey k l) k = none := by
  induction l with
  | nil => rfl
  | cons p tl ih =>
      obtain ⟨a, b⟩ := p
      by_cases h : a = k
      · simpa [eraseKey, h] using ih
      · simp [eraseKey, h, lookupL, ih]

theorem lookupL_eraseKey_ne {κ β : Type} [DecidableEq κ] {k k' : κ} (l : List (κ × β))
    (h : k' ≠ k) : lookupL (eraseKey k l) k' = lookupL l k' := by
  induction l with
  | nil => rfl
  | cons p tl ih =>
      obtain ⟨a, b⟩ := p
      by_cases hak : a = k
      · subst hak
        simp [eraseKey, lookupL, Ne.symm h, ih]
      · simp [eraseKey, hak, lookupL, ih]

theorem lookupL_append_of_none {κ β : Type} [DecidableEq κ] {l₁ : List (κ × β)}
    (l₂ : List (κ × β)) {k : κ} (h : lookupL l₁ k = none) :
    lookupL (l₁ ++ l₂) k = lookupL l₂ k := by
  induction l₁ with
  | nil => rfl
  | cons p tl ih =>
      obtain ⟨a, b⟩ := p
      by_cases hak : a = k
      · simp [lookupL, hak] at h
      · simp only [lookupL, hak, if_false, List.cons_append] at *
        simp [lookupL, hak] at h ⊢
        exact ih h

theorem lookupL_append_of_some {κ β : Type} [DecidableEq κ] {l₁ : List (κ × β)}
    (l₂ : List (κ × β)) {k : κ} {v : β} (h : lookupL l₁ k = some v) :
    lookupL (l₁ ++ l₂) k = some v := by
  induction l₁ with
  | nil => simp [lookupL] at h
  | cons p tl ih =>
      obtain ⟨a, b⟩ := p
      by_cases hak : a = k
      · simp [lookupL, hak] at h ⊢
        exact h
      · simp [lookupL, hak] at h ⊢
        exact ih h

theorem lookupL_setL_self {κ β : Type} [DecidableEq κ] (k : κ) (v : β) (l : List (κ × β)) :
    lookupL (setL k v l) k = some v := by
  unfold setL
  rw [lookupL_append_of_none _ (lookupL_eraseKey_self k l)]
  simp [lookupL]

theorem lookupL_setL_ne {κ β : Type} [DecidableEq κ] {k k' : κ} (v : β) (l : List (κ × β))
    (h : k' ≠ k) : lookupL (setL k v l) k' = lookupL l k' := by
  have he : lookupL (eraseKey k l) k' = lookupL l k' := lookupL_eraseKey_ne l h
  unfold setL
  cases hc : lookupL (eraseKey k l) k' with
  | none =>
      rw [lookupL_append_of_none _ hc, ← he, hc]
      simp [lookupL, Ne.symm h]
  | some w =>
      rw [lookupL_append_of_some _ hc, ← he, hc]

theorem lookupL_mem {κ β : Type} [DecidableEq κ] :
    ∀ {l : List (κ × β)} {k : κ} {v : β}, lookupL l k = some v → (k, v) ∈ l := by
  intro l
  induction l with
  | nil => intro k v h; simp [lookupL] at h
  | cons p tl ih =>
      intro k v h
      obtain ⟨a, b⟩ := p
      by_cases hak : a = k
      · subst hak
        simp [lookupL] at h
        subst h
        exact List.mem_cons_self _ _
      · simp [lookupL, hak] at h
        exact List.mem_cons_of_mem _ (ih h)

theorem eraseKey_append {κ β : Type} [DecidableEq κ] (k : κ) (l₁ l₂ : List (κ × β)) :
    eraseKey k (l₁ ++ l₂) = eraseKey k l₁ ++ eraseKey k l₂ := by
  induction l₁ with
  | nil => rfl
  | cons p tl ih =>
      by_cases h : p.1 = k
      · simp [eraseKey, h, ih]
      · simp [eraseKey, h, ih]

theorem eraseKey_idem {κ β : Type} [DecidableEq κ] (k : κ) (l : List (κ × β)) :
    eraseKey k (eraseKey k l) = eraseKey k l := by
  induction l with
  | nil => rfl
  | cons p tl ih =>
      by_cases h : p.1 = k
      · simp [eraseKey, h, ih]
      · simp [eraseKey, h, ih]

theorem setL_setL {κ β : Type} [DecidableEq κ] (k : κ) (v₁ v₂ : β) (l : List (κ × β)) :
    setL k v₂ (setL k v₁ l) = setL k v₂ l := by
  simp [setL, eraseKey_append, eraseKey_idem, eraseKey]

theorem mem_insertSet {α : Type} [DecidableEq α] {a b : α} {l : List α} :
    a ∈ insertSet b l ↔ a = b ∨ a ∈ l := by
  unfold insertSet
  by_cases h : b ∈ l
  · simp only [h, if_true]
    constructor
    · exact fun h' => Or.inr h'
    · rintro (rfl | h')
      · exact h
      · exact h'
  · simp [h, List.mem_cons]

theorem insertSet_self_mem {α : Type} [DecidableEq α] (a : α) (l : List α) :
    a ∈ insertSet a l :=
  mem_insertSet.mpr (Or.inl rfl)

theorem insertSet_idem {α : Type} [DecidableEq α] (a : α) (l : List α) :
    insertSet a (insertSet a l) = insertSet a l := by
  unfold insertSet
  by_cases h : a ∈ l
  · simp [h]
  · simp [h, List.mem_cons]

theorem nodup_insertSet {α : Type} [DecidableEq α] {a : α} {l : List α} (h : l.Nodup) :
    (insertSet a l).Nodup := by
  unfold insertSet
  by_cases hm : a ∈ l
  · simpa [hm] using h
  · simp only [hm, if_false]
    exact List.nodup_cons.mpr ⟨hm, h⟩

theorem length_insertSet_le {α : Type} [DecidableEq α] (a : α) (l : List α) :
    (insertSet a l).length ≤ l.length + 1 := by
  unfold insertSet
  by_cases h : a ∈ l
  · simp [h]
  · simp [h]

theorem mem_foldl_insertSet {α : Type} [DecidableEq α] {c : α} :
    ∀ (l : List α) (acc : List α), (c ∈ l ∨ c ∈ acc) →
      c ∈ l.foldl (fun ac x => insertSet x ac) acc := by
  intro l
  induction l with
  | nil =>
      intro acc h
      simpa using h.resolve_left (by simp)
  | cons b tl ih =>
      intro acc h
      simp only [List.foldl_cons]
      rcases h with h | h
      · rcases List.mem_cons.mp h with rfl | h'
        · exact ih _ (Or.inr (insertSet_self_mem _ _))
        · exact ih _ (Or.inl h')
      · exact ih _ (Or.inr (mem_insertSet.mpr (Or.inr h)))

theorem mem_eraseAll {α : Type} [DecidableEq α] {a b : α} {l : List α} :
    a ∈ eraseAll b l ↔ a ≠ b ∧ a ∈ l := by
  induction l with
  | nil => simp [eraseAll]
  | cons x tl ih =>
      by_cases h : x = b
      · subst h
        have hx : eraseAll x (x :: tl) = eraseAll x tl := by
          simp [eraseAll]
        rw [hx, ih, List.mem_cons]
        constructor
        · rintro ⟨hab, hm⟩
          exact ⟨hab, Or.inr hm⟩
        · rintro ⟨hab, rfl | hm⟩
          · exact absurd rfl hab
          · exact ⟨hab, hm⟩
      · simp only [eraseAll, if_neg h, List.mem_cons]
        rw [ih]
        constructor
        · rintro (rfl | ⟨hab, hm⟩)
          · exact ⟨h, Or.inl rfl⟩
          · exact ⟨hab, Or.inr hm⟩
        · rintro ⟨hab, rfl | hm⟩
          · exact Or.inl rfl
          · exact Or.inr ⟨hab, hm⟩

theorem eraseAll_of_not_mem {α : Type} [DecidableEq α] {a : α} {l : List α} (h : a ∉ l) :
    eraseAll a l = l := by
  induction l with
  | nil => rfl
  | cons b tl ih =>
      have hb : b ≠ a := fun hba => h (hba ▸ List.mem_cons_self _ _)
      have htl : a ∉ tl := fun hm => h (List.mem_cons_of_mem _ hm)
      simp [eraseAll, hb, ih htl]

theorem not_mem_eraseAll {α : Type} [DecidableEq α] (a : α) (l : List α) :
    a ∉ eraseAll a l :=
  fun h => (mem_eraseAll.mp h).1 rfl

theorem nodup_eraseAll {α : Type} [DecidableEq α] {a : α} {l : List α} (h : l.Nodup) :
    (eraseAll a l).Nodup := by
  induction l with
  | nil => simp [eraseAll]
  | cons b tl ih =>
      obtain ⟨hb, htl⟩ := List.nodup_cons.mp h
      by_cases hba : b = a
      · simpa [eraseAll, hba] using ih htl
      · simp only [eraseAll, if_neg hba]
        exact List.nodup_cons.mpr ⟨fun hm => hb (mem_eraseAll.mp hm).2, ih htl⟩

theorem length_eraseAll {α : Type} [DecidableEq α] {a : α} {l : List α}
    (h : l.Nodup) (hm : a ∈ l) : (eraseAll a l).length + 1 = l.length := by
  induction l with
  | nil => simp at hm
  | cons b tl ih =>
      obtain ⟨hb, htl⟩ := List.nodup_cons.mp h
      rcases List.mem_cons.mp hm with rfl | hmem
      · rw [eraseAll, if_pos rfl, eraseAll_of_not_mem hb]
        rfl
      · have hba : b ≠ a := fun hba => hb (hba ▸ hmem)
        simp only [eraseAll, if_neg hba, List.length_cons]
        rw [← ih htl hmem]

theorem eq_of_mem_of_eraseAll_nil {α : Type} [DecidableEq α] {a x : α} {l : List α}
    (h : eraseAll a l = []) (hx : x ∈ l) : x = a := by
  by_contra hne
  have hmem := mem_eraseAll.mpr ⟨hne, hx⟩
  rw [h] at hmem
  simp at hmem

theorem isEmpty_iff_eq_nil {α : Type} {l : List α} : l.isEmpty = true ↔ l = [] := by
  cases l <;> simp [List.isEmpty]

theorem insertSet_ne_nil {α : Type} [DecidableEq α] (a : α) (l : List α) :
    insertSet a l ≠ [] := by
  unfold insertSet
  by_cases h : a ∈ l
  · simp only [h, if_true]
    rintro rfl
    simp at h
  · simp [h]

/-!
### How each hub operation reads back through `members`, `cacheOf`, `bufOf`
-/

theorem members_joinRoom (s : HubState) (R : String) (c : ClientId) (R' : String) :
    members (joinRoom R c s) R' =
      if R' = R then insertSet c (members s R) else members s R' := by
  unfold joinRoom members
  by_cases h : R' = R
  · subst h
    simp [lookupL_setL_self]
  · simp [h, lookupL_setL_ne _ _ h]

theorem cacheOf_joinRoom (s : HubState) (R : String) (c : ClientId) (c' : ClientId) :
    cacheOf (joinRoom R c s) c' =
      if c' = c then insertSet R (cacheOf s c) else cacheOf s c' := by
  unfold joinRoom cacheOf
  by_cases h : c' = c
  · subst h
    simp [lookupL_setL_self]
  · simp [h, lookupL_setL_ne _ _ h]

theorem removeFromRoom_of_none {s : HubState} {R : String} (c : ClientId)
    (hl : lookupL s.rooms R = none) : removeFromRoom R c s = s := by
  unfold removeFromRoom
  rw [hl]

theorem lookupL_rooms_removeFromRoom_self {s : HubState} {R : String} {mems : List ClientId}
    (c : ClientId) (hl : lookupL s.rooms R = some mems) :
    lookupL (removeFromRoom R c s).rooms R =
      if (eraseAll c mems).isEmpty then none else some (eraseAll c mems) := by
  unfold removeFromRoom
  rw [hl]
  by_cases he : (eraseAll c mems).isEmpty
  · simp [he, lookupL_eraseKey_self]
  · simp [he, lookupL_setL_self]

theorem lookupL_rooms_removeFromRoom_ne {R' R : String} (c : ClientId) (s : HubState)
    (hne : R' ≠ R) :
    lookupL (removeFromRoom R c s).rooms R' = lookupL s.rooms R' := by
  unfold removeFromRoom
  cases hl : lookupL s.rooms R with
  | none => rfl
  | some mems =>
      by_cases he : (eraseAll c mems).isEmpty
      · simp [he, lookupL_eraseKey_ne _ hne]
      · simp [he, lookupL_setL_ne _ _ hne]

theorem members_removeFromRoom_self (R : String) (c : ClientId) (s : HubState) :
    members (removeFromRoom R c s) R = eraseAll c (members s R) := by
  cases hl : lookupL s.rooms R with
  | none =>
      rw [removeFromRoom_of_none c hl]
      simp [members, hl, eraseAll]
  | some mems =>
      rw [members, lookupL_rooms_removeFromRoom_self c hl]
      by_cases he : (eraseAll c mems).isEmpty
      · rw [if_pos he]
        rw [isEmpty_iff_eq_nil] at he
        simp [members, hl, he]
      · rw [if_neg he]
        simp [members, hl]

theorem members_removeFromRoom_ne {R' R : String} (c : ClientId) (s : HubState)
    (hne : R' ≠ R) : members (removeFromRoom R c s) R' = members s R' := by
  rw [members, lookupL_rooms_removeFromRoom_ne c s hne]
  rfl

theorem cacheOf_removeFromRoom_some {s : HubState} {R : String} {mems : List ClientId}
    (c : ClientId) (hl : lookupL s.rooms R = some mems) :
    cacheOf (removeFromRoom R c s) c = eraseAll R (cacheOf s c) := by
  unfold removeFromRoom
  rw [hl]
  by_cases he : (eraseAll c mems).isEmpty
  · simp [he, cacheOf, lookupL_setL_self]
  · simp [he, cacheOf, lookupL_setL_self]

theorem cacheOf_removeFromRoom_ne {c' c : ClientId} (R : String) (s : HubState)
    (hne : c' ≠ c) : cacheOf (removeFromRoom R c s) c' = cacheOf s c' := by
  unfold removeFromRoom
  cases hl : lookupL s.rooms R with
  | none => rfl
  | some mems =>
      by_cases he : (eraseAll c mems).isEmpty
      · simp [he, cacheOf, lookupL_setL_ne _ _ hne]
      · simp [he, cacheOf, lookupL_setL_ne _ _ hne]

/-!
### Frame lemmas: fields each operation leaves untouched
-/

theorem removeFromRoom_frame (R : String) (c : ClientId) (s : HubState) :
    (removeFromRoom R c s).clients = s.clients ∧
    (removeFromRoom R c s).bufs = s.bufs ∧
    (removeFromRoom R c s).closedBufs = s.closedBufs ∧
    (removeFromRoom R c s).active = s.active ∧
    (removeFromRoom R c s).totalConns = s.totalConns ∧
    (removeFromRoom R c s).msgsSent = s.msgsSent := by
  unfold removeFromRoom
  cases hl : lookupL s.rooms R with
  | none => exact ⟨rfl, rfl, rfl, rfl, rfl, rfl⟩
  | some mems =>
      by_cases he : (eraseAll c mems).isEmpty
      · simp [he]
      · simp [he]

theorem foldl_removeFromRoom_frame (c : ClientId) :
    ∀ (rs : List String) (s : HubState),
      (rs.foldl (fun t r => removeFromRoom r c t) s).clients = s.clients ∧
      (rs.foldl (fun t r => removeFromRoom r c t) s).bufs = s.bufs ∧
      (rs.foldl (fun t r => removeFromRoom r c t) s).closedBufs = s.closedBufs ∧
      (rs.foldl (fun t r => removeFromRoom r c t) s).active = s.active ∧
      (rs.foldl (fun t r => removeFromRoom r c t) s).totalConns = s.totalConns ∧
      (rs.foldl (fun t r => removeFromRoom r c t) s).msgsSent = s.msgsSent := by
  intro rs
  induction rs with
  | nil => intro s; exact ⟨rfl, rfl, rfl, rfl, rfl, rfl⟩
  | cons r tl ih =>
      intro s
      simp only [List.foldl_cons]
      obtain ⟨i1, i2, i3, i4, i5, i6⟩ := ih (removeFromRoom r c s)
      obtain ⟨f1, f2, f3, f4, f5, f6⟩ := removeFromRoom_frame r c s
      exact ⟨i1.trans f1, i2.trans f2, i3.trans f3, i4.trans f4, i5.trans f5, i6.trans f6⟩

theorem joinRoom_frame (R : String) (c : ClientId) (s : HubState) :
    (joinRoom R c s).clients = s.clients ∧
    (joinRoom R c s).bufs = s.bufs ∧
    (joinRoom R c s).closedBufs = s.closedBufs ∧
    (joinRoom R c s).active = s.active ∧
    (joinRoom R c s).totalConns = s.totalConns :=
  ⟨rfl, rfl, rfl, rfl, rfl⟩

theorem registerClient_frame (c : ClientId) (s : HubState) :
    (registerClient c s).rooms = s.rooms ∧
    (registerClient c s).caches = s.caches ∧
    (registerClient c s).bufs = s.bufs ∧
    (registerClient c s).closedBufs = s.closedBufs ∧
    (registerClient c s).roomCounts = s.roomCounts :=
  ⟨rfl, rfl, rfl, rfl, rfl⟩

theorem fanout_frame (m : Message) :
    ∀ (ts : List ClientId) (s : HubState),
      ((fanout m ts s).state).rooms = s.rooms ∧
      ((fanout m ts s).state).caches = s.caches ∧
      ((fanout m ts s).state).clients = s.clients ∧
      ((fanout m ts s).state).closedBufs = s.closedBufs ∧
      ((fanout m ts s).state).active = s.active ∧
      ((fanout m ts s).state).totalConns = s.totalConns ∧
      ((fanout m ts s).state).roomCounts = s.roomCounts := by
  intro ts
  induction ts with
  | nil => intro s; exact ⟨rfl, rfl, rfl, rfl, rfl, rfl, rfl⟩
  | cons c rest ih =>
      intro s
      unfold fanout
      by_cases hc : c ∈ s.closedBufs
      · simp only [hc, if_true]
        exact ⟨rfl, rfl, rfl, rfl, rfl, rfl, rfl⟩
      · by_cases hlen : (bufOf s c).length < sendBufferSize
        · simp only [hc, if_false, hlen, if_true]
          exact ih _
        · simp only [hc, if_false, hlen]
          exact ⟨rfl, rfl, rfl, rfl, rfl, rfl, rfl⟩

theorem broadcastMessage_frame (m : Message) (s : HubState) :
    ((broadcastMessage m s).state).rooms = s.rooms ∧
    ((broadcastMessage m s).state).caches = s.caches ∧
    ((broadcastMessage m s).state).clients = s.clients ∧
    ((broadcastMessage m s).state).closedBufs = s.closedBufs ∧
    ((broadcastMessage m s).state).active = s.active ∧
    ((broadcastMessage m s).state).totalConns = s.totalConns ∧
    ((broadcastMessage m s).state).roomCounts = s.roomCounts :=
  fanout_frame m (targetClients m s) s

theorem unregisterClient_of_not_mem {c : ClientId} {s : HubState} (h : c ∉ s.clients) :
    unregisterClient c s = s := by
  unfold unregisterClient
  rw [if_neg h]

theorem rooms_joinRoom (s : HubState) (R : String) (c : ClientId) :
    (joinRoom R c s).rooms = setL R (insertSet c (members s R)) s.rooms :=
  rfl

/-!
### Preservation of hub well-formedness
-/

theorem roomsWF_congr {s s' : HubState} (hr : s'.rooms = s.rooms)
    (hc : s'.caches = s.caches) (h : RoomsWF s) : RoomsWF s' := by
  obtain ⟨h1, h2⟩ := h
  constructor
  · intro R ms hms
    rw [hr] at hms
    exact h1 R ms hms
  · intro c R
    have hm : members s' R = members s R := by rw [members, members, hr]
    have hcc : cacheOf s' c = cacheOf s c := by rw [cacheOf, cacheOf, hc]
    rw [hm, hcc]
    exact h2 c R

theorem joinRoom_roomsWF (R : String) (c : ClientId) (s : HubState)
    (h : RoomsWF s) : RoomsWF (joinRoom R c s) := by
  obtain ⟨h1, h2⟩ := h
  constructor
  · intro R' ms hms
    by_cases hR : R' = R
    · subst hR
      rw [rooms_joinRoom, lookupL_setL_self] at hms
      injection hms with hv
      rw [← hv]
      exact insertSet_ne_nil _ _
    · rw [rooms_joinRoom, lookupL_setL_ne _ _ hR] at hms
      exact h1 R' ms hms
  · intro c' R'
    rw [members_joinRoom, cacheOf_joinRoom]
    by_cases hR : R' = R
    · subst hR
      rw [if_pos rfl]
      by_cases hc : c' = c
      · subst hc
        rw [if_pos rfl]
        constructor
        · intro _
          exact insertSet_self_mem _ _
        · intro _
          exact insertSet_self_mem _ _
      · rw [if_neg hc, mem_insertSet]
        constructor
        · rintro (rfl | hm)
          · exact absurd rfl hc
          · exact (h2 c' R').mp hm
        · intro hm
          exact Or.inr ((h2 c' R').mpr hm)
    · rw [if_neg hR]
      by_cases hc : c' = c
      · subst hc
        rw [if_pos rfl, mem_insertSet]
        constructor
        · intro hm
          exact Or.inr ((h2 c' R').mp hm)
        · rintro (rfl | hm)
          · exact absurd rfl hR
          · exact (h2 c' R').mpr hm
      · rw [if_neg hc]
        exact h2 c' R'

theorem removeFromRoom_roomsWF (R : String) (c : ClientId) (s : HubState)
    (h : RoomsWF s) : RoomsWF (removeFromRoom R c s) := by
  obtain ⟨h1, h2⟩ := h
  cases hl : lookupL s.rooms R with
  | none =>
      rw [removeFromRoom_of_none c hl]
      exact ⟨h1, h2⟩
  | some mems =>
      constructor
      · intro R' ms hms
        by_cases hR : R' = R
        · subst hR
          rw [lookupL_rooms_removeFromRoom_self c hl] at hms
          by_cases he : (eraseAll c mems).isEmpty
          · rw [if_pos he] at hms
            cases hms
          · rw [if_neg he] at hms
            injection hms with hv
            rw [← hv]
            intro hn
            exact he (by rw [hn]; rfl)
        · rw [lookupL_rooms_removeFromRoom_ne c s hR] at hms
          exact h1 R' ms hms
      · intro c' R'
        by_cases hR : R' = R
        · subst hR
          rw [members_removeFromRoom_self]
          by_cases hc : c' = c
          · subst hc
            rw [cacheOf_removeFromRoom_some c' hl]
            constructor
            · intro hm
              exact absurd hm (not_mem_eraseAll _ _)
            · intro hm
              exact absurd hm (not_mem_eraseAll _ _)
          · rw [cacheOf_removeFromRoom_ne R' s hc, mem_eraseAll]
            constructor
            · rintro ⟨_, hm⟩
              exact (h2 c' R').mp hm
            · intro hm
              exact ⟨hc, (h2 c' R').mpr hm⟩
        · rw [members_removeFromRoom_ne c s hR]
          by_cases hc : c' = c
          · subst hc
            rw [cacheOf_removeFromRoom_some c' hl, mem_eraseAll]
            constructor
            · intro hm
              exact ⟨hR, (h2 c' R').mp hm⟩
            · rintro ⟨_, hm⟩
              exact (h2 c' R').mpr hm
          · rw [cacheOf_removeFromRoom_ne R s hc]
            exact h2 c' R'

theorem foldl_removeFromRoom_roomsWF (c : ClientId) :
    ∀ (rs : List String) (s : HubState), RoomsWF s →
      RoomsWF (rs.foldl (fun t r => removeFromRoom r c t) s) := by
  intro rs
  induction rs with
  | nil => intro s h; exact h
  | cons r tl ih =>
      intro s h
      simp only [List.foldl_cons]
      exact ih _ (removeFromRoom_roomsWF r c s h)

theorem unregisterClient_roomsWF (c : ClientId) (s : HubState)
    (h : RoomsWF s) : RoomsWF (unregisterClient c s) := by
  by_cases hm : c ∈ s.clients
  · unfold unregisterClient
    rw [if_pos hm]
    exact roomsWF_congr rfl rfl (foldl_removeFromRoom_roomsWF c _ s h)
  · rw [unregisterClient_of_not_mem hm]
    exact h

theorem applyOp_wf (o : Op) (s : HubState) (h : HubWF s) : HubWF (applyOp o s) := by
  obtain ⟨hn, hw, hl⟩ := h
  cases o with
  | reg c =>
      refine ⟨nodup_insertSet hn, roomsWF_congr rfl rfl hw, ?_⟩
      show ((insertSet c s.clients).length : Int) ≤ s.active + 1
      calc ((insertSet c s.clients).length : Int)
          ≤ (s.clients.length : Int) + 1 := by
            exact_mod_cast length_insertSet_le c s.clients
        _ ≤ s.active + 1 := by linarith
  | unreg c =>
      by_cases hm : c ∈ s.clients
      · show HubWF (unregisterClient c s)
        unfold unregisterClient
        rw [if_pos hm]
        obtain ⟨f1, _, _, f4, _, _⟩ :=
          foldl_removeFromRoom_frame c (cacheOf s c) s
        refine ⟨?_, ?_, ?_⟩
        · show (eraseAll c _).Nodup
          rw [f1]
          exact nodup_eraseAll hn
        · exact roomsWF_congr rfl rfl (foldl_removeFromRoom_roomsWF c _ s hw)
        · show ((eraseAll c _).length : Int) ≤ _ - 1
          rw [f1, f4]
          have hlen := length_eraseAll hn hm
          have : ((eraseAll c s.clients).length : Int) + 1 = (s.clients.length : Int) := by
            exact_mod_cast hlen
          linarith
      · show HubWF (unregisterClient c s)
        rw [unregisterClient_of_not_mem hm]
        exact ⟨hn, hw, hl⟩
  | join R c =>
      exact ⟨hn, joinRoom_roomsWF R c s hw, hl⟩
  | leave R c =>
      obtain ⟨f1, _, _, f4, _, _⟩ := removeFromRoom_frame R c s
      refine ⟨?_, removeFromRoom_roomsWF R c s hw, ?_⟩
      · rw [show (applyOp (Op.leave R c) s).clients = s.clients from f1]
        exact hn
      · show ((removeFromRoom R c s).clients.length : Int) ≤ (removeFromRoom R c s).active
        rw [f1, f4]
        exact hl
  | bcast m =>
      obtain ⟨f1, f2, f3, _, f5, _, _⟩ := broadcastMessage_frame m s
      refine ⟨?_, roomsWF_congr f1 f2 hw, ?_⟩
      · rw [show (applyOp (Op.bcast m) s).clients = s.clients from f3]
        exact hn
      · show (((broadcastMessage m s).state).clients.length : Int) ≤ ((broadcastMessage m s).state).active
        rw [f3, f5]
        exact hl

theorem initState_wf : HubWF initState := by
  refine ⟨List.nodup_nil, ⟨?_, ?_⟩, ?_⟩
  · intro R ms hms
    simp [initState, lookupL] at hms
  · intro c R
    simp [initState, members, cacheOf, lookupL]
  · simp [initState]

theorem runOps_wf : ∀ (ops : List Op) (s : HubState), HubWF s → HubWF (runOps ops s) := by
  intro ops
  induction ops with
  | nil => intro s h; exact h
  | cons o tl ih =>
      intro s h
      simp only [runOps, List.foldl_cons]
      exact ih (applyOp o s) (applyOp_wf o s h)

theorem reachable_wf {s : HubState} (h : Reachable s) : HubWF s := by
  obtain ⟨ops, rfl⟩ := h
  exact runOps_wf ops initState initState_wf

/-!
### The fan-out on duplicate-free targets with buffer space
-/

theorem bufOf_enqueue_self (m : Message) (c : ClientId) (s : HubState) :
    bufOf (enqueue m c s) c = bufOf s c ++ [m] := by
  simp [bufOf, enqueue, lookupL_setL_self]

theorem bufOf_enqueue_ne (m : Message) {c' c : ClientId} (s : HubState) (h : c' ≠ c) :
    bufOf (enqueue m c s) c' = bufOf s c' := by
  simp [bufOf, enqueue, lookupL_setL_ne _ _ h]

theorem fanout_ok (m : Message) :
    ∀ (ts : List ClientId) (s : HubState), ts.Nodup →
      (∀ c ∈ ts, c ∉ s.closedBufs ∧ (bufOf s c).length < sendBufferSize) →
      ∃ s', fanout m ts s = .ok s'
        ∧ (∀ c ∈ ts, bufOf s' c = bufOf s c ++ [m])
        ∧ (∀ c, c ∉ ts → bufOf s' c = bufOf s c) := by
  intro ts
  induction ts with
  | nil =>
      intro s _ _
      exact ⟨s, rfl, by simp, fun c _ => rfl⟩
  | cons c rest ih =>
      intro s hnd hok
      obtain ⟨hcnotin, hrestnd⟩ := List.nodup_cons.mp hnd
      obtain ⟨hc1, hc2⟩ := hok c (List.mem_cons_self _ _)
      have hstep : fanout m (c :: rest) s = fanout m rest (enqueue m c s) := by
        simp only [fanout]
        rw [if_neg hc1, if_pos hc2]
      have hcond : ∀ c' ∈ rest, c' ∉ (enqueue m c s).closedBufs ∧
          (bufOf (enqueue m c s) c').length < sendBufferSize := by
        intro c' hc'
        have hne : c' ≠ c := fun he => hcnotin (he ▸ hc')
        obtain ⟨d1, d2⟩ := hok c' (List.mem_cons_of_mem _ hc')
        refine ⟨d1, ?_⟩
        rw [bufOf_enqueue_ne m s hne]
        exact d2
      obtain ⟨s', hfan, hin, hout⟩ := ih (enqueue m c s) hrestnd hcond
      refine ⟨s', hstep.trans hfan, ?_, ?_⟩
      · intro c₀ hc₀
        rcases List.mem_cons.mp hc₀ with rfl | hmem
        · rw [hout c₀ hcnotin, bufOf_enqueue_self]
        · have hne : c₀ ≠ c := fun he => hcnotin (he ▸ hmem)
          rw [hin c₀ hmem, bufOf_enqueue_ne m s hne]
      · intro c₀ hc₀
        have hnr : c₀ ∉ rest := fun hmem => hc₀ (List.mem_cons_of_mem _ hmem)
        have hne : c₀ ≠ c := fun he => hc₀ (he ▸ List.mem_cons_self _ _)
        rw [hout c₀ hnr, bufOf_enqueue_ne m s hne]

/-!
### The unregister fold: complete removal from all rooms
-/

theorem foldl_removeFromRoom_not_mem (c : ClientId) :
    ∀ (rs : List String) (s : HubState), RoomsWF s →
      (∀ R, c ∈ members s R → R ∈ rs) →
      ∀ R, c ∉ members (rs.foldl (fun t r => removeFromRoom r c t) s) R := by
  intro rs
  induction rs with
  | nil =>
      intro s _ hcov R hm
      exact List.not_mem_nil _ (hcov R hm)
  | cons r tl ih =>
      intro s hwf hcov R
      simp only [List.foldl_cons]
      refine ih (removeFromRoom r c s) (removeFromRoom_roomsWF r c s hwf) ?_ R
      intro R' hm
      by_cases hR : R' = r
      · subst hR
        rw [members_removeFromRoom_self] at hm
        exact absurd hm (not_mem_eraseAll _ _)
      · rw [members_removeFromRoom_ne c s hR] at hm
        rcases List.mem_cons.mp (hcov R' hm) with he | hmem
        · exact absurd he hR
        · exact hmem

theorem foldl_removeFromRoom_lookup_none (c : ClientId) (R : String) :
    ∀ (rs : List String) (s : HubState), lookupL s.rooms R = none →
      lookupL ((rs.foldl (fun t r => removeFromRoom r c t) s)).rooms R = none := by
  intro rs
  induction rs with
  | nil => intro s h; exact h
  | cons r tl ih =>
      intro s h
      simp only [List.foldl_cons]
      refine ih (removeFromRoom r c s) ?_
      by_cases hr : r = R
      · subst hr
        rw [removeFromRoom_of_none c h]
        exact h
      · rw [lookupL_rooms_removeFromRoom_ne c s (fun he => hr he.symm)]
        exact h

theorem foldl_removeFromRoom_single (c : ClientId) (R : String) :
    ∀ (rs : List String) (s : HubState),
      lookupL s.rooms R = some [c] → R ∈ rs →
      lookupL ((rs.foldl (fun t r => removeFromRoom r c t) s)).rooms R = none := by
  intro rs
  induction rs with
  | nil => intro s _ hmem; exact absurd hmem (List.not_mem_nil R)
  | cons r tl ih =>
      intro s hl hmem
      simp only [List.foldl_cons]
      by_cases hr : r = R
      · subst hr
        have herased : lookupL (removeFromRoom r c s).rooms r = none := by
          rw [lookupL_rooms_removeFromRoom_self c hl]
          simp [eraseAll]
        exact foldl_removeFromRoom_lookup_none c r tl _ herased
      · have hkeep : lookupL (removeFromRoom r c s).rooms R = some [c] := by
          rw [lookupL_rooms_removeFromRoom_ne c s (fun he => hr he.symm)]
          exact hl
        rcases List.mem_cons.mp hmem with he | htl
        · exact absurd he.symm hr
        · exact ih (removeFromRoom r c s) hkeep htl

/-!
### Counter bookkeeping along a run
-/

theorem unregisterClient_active (c : ClientId) (s : HubState) :
    (unregisterClient c s).active =
      if c ∈ s.clients then s.active - 1 else s.active := by
  by_cases h : c ∈ s.clients
  · rw [if_pos h]
    unfold unregisterClient
    rw [if_pos h]
    obtain ⟨_, _, _, f4, _, _⟩ := foldl_removeFromRoom_frame c (cacheOf s c) s
    show (List.foldl _ s (cacheOf s c)).active - 1 = s.active - 1
    rw [f4]
  · rw [if_neg h, unregisterClient_of_not_mem h]

theorem runOps_active :
    ∀ (ops : List Op) (s : HubState),
      (runOps ops s).active = s.active + countReg ops - countEffUnreg ops s := by
  intro ops
  induction ops with
  | nil =>
      intro s
      simp [runOps, countReg, countEffUnreg]
  | cons o tl ih =>
      intro s
      have hstep : runOps (o :: tl) s = runOps tl (applyOp o s) := by
        simp [runOps]
      rw [hstep, ih]
      cases o with
      | reg c =>
          have ha : (applyOp (Op.reg c) s).active = s.active + 1 := rfl
          rw [ha]
          simp only [countReg, countEffUnreg]
          ring
      | unreg c =>
          have ha : (applyOp (Op.unreg c) s).active =
              if c ∈ s.clients then s.active - 1 else s.active :=
            unregisterClient_active c s
          rw [ha]
          simp only [countReg, countEffUnreg]
          by_cases h : c ∈ s.clients
          · rw [if_pos h, if_pos h]
            ring
          · rw [if_neg h, if_neg h]
            ring
      | join R c =>
          have ha : (applyOp (Op.join R c) s).active = s.active := rfl
          rw [ha]
          simp only [countReg, countEffUnreg]
      | leave R c =>
          have ha : (applyOp (Op.leave R c) s).active = s.active :=
            (removeFromRoom_frame R c s).2.2.2.1
          rw [ha]
          simp only [countReg, countEffUnreg]
      | bcast m =>
          have ha : (applyOp (Op.bcast m) s).active = s.active :=
            (broadcastMessage_frame m s).2.2.2.2.1
          rw [ha]
          simp only [countReg, countEffUnreg]

/-!
### Store-cell lemmas for the metrics heap
-/

theorem readCell_append_lt :
    ∀ (st : CellStore) (i : Nat) (x : List (String × Int)), i < st.length →
      readCell (st ++ [x]) i = readCell st i := by
  intro st
  induction st with
  | nil =>
      intro i x h
      exact absurd h (Nat.not_lt_zero i)
  | cons y tl ih =>
      intro i x h
      cases i with
      | zero => rfl
      | succ n => exact ih n x (Nat.lt_of_succ_lt_succ h)

theorem readCell_append_self :
    ∀ (st : CellStore) (x : List (String × Int)),
      readCell (st ++ [x]) st.length = x := by
  intro st
  induction st with
  | nil => intro x; rfl
  | cons y tl ih => intro x; exact ih x

theorem readCell_writeCell_ne :
    ∀ (st : CellStore) (i j : Nat) (v : List (String × Int)), i ≠ j →
      readCell (writeCell i v st) j = readCell st j := by
  intro st
  induction st with
  | nil => intro i j v _; rfl
  | cons y tl ih =>
      intro i j v h
      cases i with
      | zero =>
          cases j with
          | zero => exact absurd rfl h
          | succ m => rfl
      | succ n =>
          cases j with
          | zero => rfl
          | succ m => exact ih n m v (fun he => h (he ▸ rfl))

theorem applyMOp_liveId (op : MOp) (h : MetricsLive) :
    (applyMOp op h).liveId = h.liveId := by
  cases op <;> rfl

theorem unregisterClient_rooms (c : ClientId) (s : HubState) (hm : c ∈ s.clients) :
    (unregisterClient c s).rooms =
      ((cacheOf s c).foldl (fun t r => removeFromRoom r c t) s).rooms := by
  unfold unregisterClient
  rw [if_pos hm]

/-!
### The wrapped int32 counter
-/

theorem wrap32_zero : wrap32 0 = 0 := by
  unfold wrap32
  decide

theorem wrap32_fixed {x : Int} (h1 : -2147483648 ≤ x) (h2 : x < 2147483648) :
    wrap32 x = x := by
  unfold wrap32
  omega

theorem wrap32_wrap32_add (x k : Int) : wrap32 (wrap32 x + k) = wrap32 (x + k) := by
  unfold wrap32
  omega

theorem wrap32_wrap32_sub (x k : Int) : wrap32 (wrap32 x - k) = wrap32 (x - k) := by
  unfold wrap32
  omega

theorem countEffUnreg_nonneg : ∀ (ops : List Op) (s : HubState), 0 ≤ countEffUnreg ops s := by
  intro ops
  induction ops with
  | nil =>
      intro s
      simp [countEffUnreg]
  | cons o tl ih =>
      intro s
      cases o with
      | unreg c =>
          simp only [countEffUnreg]
          have h := ih (applyOp (Op.unreg c) s)
          by_cases hm : c ∈ s.clients
          · rw [if_pos hm]
            linarith
          · rw [if_neg hm]
            linarith
      | reg c => simp only [countEffUnreg]; exact ih _
      | join R c => simp only [countEffUnreg]; exact ih _
      | leave R c => simp only [countEffUnreg]; exact ih _
      | bcast m => simp only [countEffUnreg]; exact ih _

theorem runActive32_wrap :
    ∀ (ops : List Op) (s : HubState) (t : Int),
      runActive32 ops s (wrap32 t) = wrap32 (t + countReg ops - countEffUnreg ops s) := by
  intro ops
  induction ops with
  | nil =>
      intro s t
      simp only [runActive32, countReg, countEffUnreg]
      exact congrArg wrap32 (by ring)
  | cons o tl ih =>
      intro s t
      cases o with
      | reg c =>
          simp only [runActive32, countReg, countEffUnreg]
          rw [wrap32_wrap32_add, ih]
          exact congrArg wrap32 (by ring)
      | unreg c =>
          simp only [runActive32, countReg, countEffUnreg]
          by_cases hm : c ∈ s.clients
          · rw [if_pos hm, if_pos hm, wrap32_wrap32_sub, ih _ (t - 1)]
            exact congrArg wrap32 (by ring)
          · rw [if_neg hm, if_neg hm, ih _ t]
            exact congrArg wrap32 (by ring)
      | join R c =>
          simp only [runActive32, countReg, countEffUnreg]
          exact ih _ t
      | leave R c =>
          simp only [runActive32, countReg, countEffUnreg]
          exact ih _ t
      | bcast m =>
          simp only [runActive32, countReg, countEffUnreg]
          exact ih _ t

theorem runActive32_eq (ops : List Op) :
    runActive32 ops initState 0 =
      wrap32 (countReg ops - countEffUnreg ops initState) := by
  rw [show (0 : Int) = wrap32 0 from wrap32_zero.symm, runActive32_wrap]
  exact congrArg wrap32 (by ring)

theorem countReg_replicate_reg :
    ∀ (n : Nat) (c : ClientId), countReg (List.replicate n (Op.reg c)) = (n : Int) := by
  intro n
  induction n with
  | zero => intro c; rfl
  | succ m ih =>
      intro c
      rw [List.replicate_succ]
      show 1 + countReg (List.replicate m (Op.reg c)) = ((m + 1 : Nat) : Int)
      rw [ih c]
      push_cast
      ring

theorem countEffUnreg_replicate_reg :
    ∀ (n : Nat) (c : ClientId) (s : HubState),
      countEffUnreg (List.replicate n (Op.reg c)) s = 0 := by
  intro n
  induction n with
  | zero => intro c s; rfl
  | succ m ih =>
      intro c s
      rw [List.replicate_succ]
      simp only [countEffUnreg]
      exact ih c _

/-!
### The claims
-/

/-- Claim C1: the specification requires that a broadcast hitting a
connection with a full outbound buffer forcibly unregisters that
connection without blocking the fan-out to the other targets.  The code
does not satisfy this: in `broadcastMessage` the default select branch
executes the blocking send `h.Unregister <- client` from inside the
control loop itself — the only receiver of that unbuffered channel — so
the fan-out gets stuck forever.  Concretely, with clients 0 and 1
registered and client 0's buffer holding 256 pending messages, a
broadcast-to-all ends in the `blocked` outcome: client 0 is still
registered, the active-connection count is unchanged, and client 1 never
receives the message. -/
theorem claim_C1_backpressure_deadlock :
    broadcastMessage (broadcastToAllMsg "notice" "x" 1) fullBufHub =
      BResult.blocked fullBufHub 0
    ∧ 0 ∈ fullBufHub.clients
    ∧ fullBufHub.active = 2
    ∧ bufOf fullBufHub 1 = [] :=
  ⟨rfl, by decide, rfl, rfl⟩

/-- Claim C2 counterexample: register one client, then process the
shutdown signal — the `ActiveConnections` counter is still 1, not 0 as
the claim requires. -/
theorem claim_C2_counterexample :
    (runLoop [HEvent.ctl (Op.reg 0), HEvent.cancel] initState).active = 1
    ∧ (runLoop [HEvent.ctl (Op.reg 0), HEvent.cancel] initState).active ≠ 0 :=
  ⟨rfl, by decide⟩

/-- Claim C2 (amended): after the shutdown signal the Hub processes no
further control messages; every connection registered at that moment has
its outbound buffer closed; the connection registry and the room index
are cleared, so `GetTotalClients` returns 0 — but the
`ActiveConnections` metric retains its pre-shutdown value instead of
becoming 0. -/
theorem claim_C2_shutdown (s : HubState) (rest : List HEvent) :
    runLoop (HEvent.cancel :: rest) s = shutdown s
    ∧ (shutdown s).clients = []
    ∧ (shutdown s).rooms = []
    ∧ getTotalClients (shutdown s) = 0
    ∧ (∀ c, c ∈ s.clients → c ∈ (shutdown s).closedBufs)
    ∧ (shutdown s).active = s.active := by
  refine ⟨rfl, rfl, rfl, rfl, ?_, rfl⟩
  intro c hc
  exact mem_foldl_insertSet _ _ (Or.inl hc)

/-- Witness for `claim_C2_shutdown` at a concrete hub with client 0
registered and a trailing register event after the shutdown signal. -/
theorem claim_C2_shutdown_witness :
    runLoop (HEvent.cancel :: [HEvent.ctl (Op.reg 1)]) (registerClient 0 initState)
      = shutdown (registerClient 0 initState)
    ∧ 0 ∈ (shutdown (registerClient 0 initState)).closedBufs := by
  have h := claim_C2_shutdown (registerClient 0 initState) [HEvent.ctl (Op.reg 1)]
  exact ⟨h.1, h.2.2.2.2.1 0 (by decide)⟩

/-- Claim C3 counterexample: a room broadcast enqueues nothing onto a
member whose outbound buffer is already full (and the fan-out ends
blocked), so "enqueues exactly one message onto the outbound buffer of
every member" fails without a buffer-space proviso. -/
theorem claim_C3_counterexample :
    0 ∈ members fullBufRoomHub "s1"
    ∧ (broadcastMessage (broadcastToRoomMsg "s1" "notice" "x" 2) fullBufRoomHub).state
        = fullBufRoomHub
    ∧ broadcastToRoomMsg "s1" "notice" "x" 2 ∉ bufOf fullBufRoomHub 0 :=
  ⟨by decide, rfl, by decide⟩

/-- Claim C3 (amended): when every member of room R has an open,
non-full outbound buffer, processing a `BroadcastToRoom(R, …)` message
enqueues exactly one copy of the message onto every member of R at
resolution time and nothing onto any connection outside R. -/
theorem claim_C3_room_broadcast (R : String) (m : Message) (s : HubState)
    (hR : m.room = R) (hne : R ≠ "")
    (hnd : (members s R).Nodup)
    (hok : ∀ c ∈ members s R, c ∉ s.closedBufs ∧ (bufOf s c).length < sendBufferSize) :
    ∃ s', broadcastMessage m s = .ok s'
      ∧ (∀ c ∈ members s R, bufOf s' c = bufOf s c ++ [m])
      ∧ (∀ c, c ∉ members s R → bufOf s' c = bufOf s c) := by
  have htc : targetClients m s = members s R := by
    unfold targetClients
    rw [hR, if_pos hne]
  unfold broadcastMessage
  rw [htc]
  exact fanout_ok m (members s R) s hnd hok

/-- Witness for `claim_C3_room_broadcast`: the spec scenario — client 0
registered and joined to "s1", one broadcast to "s1". -/
theorem claim_C3_witness :
    ∃ s', broadcastMessage (broadcastToRoomMsg "s1" "notice" "x:1" 3) scenarioHub = .ok s'
      ∧ (∀ c ∈ members scenarioHub "s1",
          bufOf s' c = bufOf scenarioHub c ++ [broadcastToRoomMsg "s1" "notice" "x:1" 3])
      ∧ (∀ c, c ∉ members scenarioHub "s1" → bufOf s' c = bufOf scenarioHub c) :=
  claim_C3_room_broadcast "s1" (broadcastToRoomMsg "s1" "notice" "x:1" 3) scenarioHub
    rfl (by decide) (by decide) (by decide)

/-- Claim C4 counterexample: a duplicate `JoinRoom` is not a no-op — the
metrics `RoomCounts` entry for the room is 1 after one join and 2 after
the duplicate join, so the two states are not identical. -/
theorem claim_C4_counterexample :
    0 ∈ members (joinRoom "s1" 0 (registerClient 0 initState)) "s1"
    ∧ lookupL (joinRoom "s1" 0 (registerClient 0 initState)).roomCounts "s1" = some 1
    ∧ lookupL (joinRoom "s1" 0 (joinRoom "s1" 0 (registerClient 0 initState))).roomCounts "s1"
        = some 2
    ∧ joinRoom "s1" 0 (joinRoom "s1" 0 (registerClient 0 initState))
        ≠ joinRoom "s1" 0 (registerClient 0 initState) :=
  ⟨by decide, by decide, by decide, by decide⟩

/-- Claim C4 (amended): a duplicate `JoinRoom(R, C)` leaves the room
index, the membership caches, the registry, the buffers and the
connection counters exactly as after the first call, but it still
increments the metrics `RoomCounts[R]` entry by one. -/
theorem claim_C4_join_idem (s : HubState) (R : String) (c : ClientId) :
    (joinRoom R c (joinRoom R c s)).rooms = (joinRoom R c s).rooms
    ∧ (joinRoom R c (joinRoom R c s)).caches = (joinRoom R c s).caches
    ∧ (joinRoom R c (joinRoom R c s)).clients = (joinRoom R c s).clients
    ∧ (joinRoom R c (joinRoom R c s)).bufs = (joinRoom R c s).bufs
    ∧ (joinRoom R c (joinRoom R c s)).closedBufs = (joinRoom R c s).closedBufs
    ∧ (joinRoom R c (joinRoom R c s)).active = (joinRoom R c s).active
    ∧ lookupL (joinRoom R c (joinRoom R c s)).roomCounts R
        = some ((lookupL (joinRoom R c s).roomCounts R).getD 0 + 1) := by
  have hm : members (joinRoom R c s) R = insertSet c (members s R) := by
    rw [members_joinRoom, if_pos rfl]
  have hc : cacheOf (joinRoom R c s) c = insertSet R (cacheOf s c) := by
    rw [cacheOf_joinRoom, if_pos rfl]
  refine ⟨?_, ?_, rfl, rfl, rfl, rfl, ?_⟩
  · show setL R (insertSet c (members (joinRoom R c s) R)) (joinRoom R c s).rooms
        = (joinRoom R c s).rooms
    rw [hm, insertSet_idem]
    exact setL_setL R _ _ s.rooms
  · show setL c (insertSet R (cacheOf (joinRoom R c s) c)) (joinRoom R c s).caches
        = (joinRoom R c s).caches
    rw [hc, insertSet_idem]
    exact setL_setL c _ _ s.caches
  · exact lookupL_setL_self _ _ _

/-- Claim C5: `Unregister` of an unregistered connection is a no-op;
calling it twice equals calling it once; and one effective call removes
the connection from every room, from the registry, decrements the
active counter by one and closes the outbound buffer. -/
theorem claim_C5_unregister_idem (s : HubState) (c : ClientId)
    (hr : Reachable s) (hm : c ∈ s.clients) :
    (∀ t : HubState, c ∉ t.clients → unregisterClient c t = t)
    ∧ unregisterClient c (unregisterClient c s) = unregisterClient c s
    ∧ c ∉ (unregisterClient c s).clients
    ∧ (∀ R, c ∉ members (unregisterClient c s) R)
    ∧ (unregisterClient c s).active = s.active - 1
    ∧ c ∈ (unregisterClient c s).closedBufs := by
  obtain ⟨hnd, hwf, _⟩ := reachable_wf hr
  have hs1frame := foldl_removeFromRoom_frame c (cacheOf s c) s
  have hcl : (unregisterClient c s).clients = eraseAll c s.clients := by
    unfold unregisterClient
    rw [if_pos hm]
    show eraseAll c (List.foldl _ s (cacheOf s c)).clients = eraseAll c s.clients
    rw [hs1frame.1]
  have hnotmem : c ∉ (unregisterClient c s).clients := by
    rw [hcl]
    exact not_mem_eraseAll c s.clients
  refine ⟨fun t ht => unregisterClient_of_not_mem ht,
    unregisterClient_of_not_mem hnotmem, hnotmem, ?_, ?_, ?_⟩
  · intro R
    have hrooms := unregisterClient_rooms c s hm
    have hnone := foldl_removeFromRoom_not_mem c (cacheOf s c) s hwf
      (fun R' hm' => (hwf.2 c R').mp hm') R
    intro hmem
    rw [members, hrooms] at hmem
    exact hnone (by rw [members]; exact hmem)
  · rw [unregisterClient_active c s, if_pos hm]
  · unfold unregisterClient
    rw [if_pos hm]
    exact insertSet_self_mem c _

/-- Witness for `claim_C5_unregister_idem` at the concrete reachable hub
with client 0 registered and in room "s1". -/
theorem claim_C5_witness :
    unregisterClient 0 (unregisterClient 0 scenarioHub) = unregisterClient 0 scenarioHub
    ∧ (unregisterClient 0 scenarioHub).active = scenarioHub.active - 1
    ∧ 0 ∈ (unregisterClient 0 scenarioHub).closedBufs := by
  have h := claim_C5_unregister_idem scenarioHub 0
    ⟨[Op.reg 0, Op.join "s1" 0], rfl⟩ (by decide)
  exact ⟨h.2.1, h.2.2.2.2.1, h.2.2.2.2.2⟩

/-- Claim C6: in every reachable hub state, every room present in the
index has at least one member; and when the last member of a room leaves
(or is unregistered, if registered) the room entry is deleted, so
`GetRoomCount` reports 0. -/
theorem claim_C6_rooms_nonempty (s : HubState) (hr : Reachable s) :
    (∀ R ms, lookupL s.rooms R = some ms → ms ≠ [])
    ∧ (∀ R c, members s R = [c] →
        getRoomCount R (leaveRoom R c s) = 0
        ∧ (c ∈ s.clients → getRoomCount R (unregisterClient c s) = 0)) := by
  obtain ⟨_, hwf, _⟩ := reachable_wf hr
  refine ⟨hwf.1, ?_⟩
  intro R c hone
  have hlk : lookupL s.rooms R = some [c] := by
    cases hq : lookupL s.rooms R with
    | none =>
        rw [members, hq] at hone
        exact List.noConfusion hone
    | some ms =>
        rw [members, hq] at hone
        simp only [Option.getD_some] at hone
        rw [hone]
  constructor
  · show (members (removeFromRoom R c s) R).length = 0
    rw [members_removeFromRoom_self, hone]
    simp [eraseAll]
  · intro hcm
    have hcov : R ∈ cacheOf s c :=
      (hwf.2 c R).mp (by rw [hone]; exact List.mem_cons_self c [])
    have hnone : lookupL ((cacheOf s c).foldl (fun t r => removeFromRoom r c t) s).rooms R
        = none :=
      foldl_removeFromRoom_single c R (cacheOf s c) s hlk hcov
    show (members (unregisterClient c s) R).length = 0
    rw [members, unregisterClient_rooms c s hcm, hnone]
    rfl

/-- Witness for `claim_C6_rooms_nonempty` at the concrete reachable hub
with client 0 registered and alone in room "s1". -/
theorem claim_C6_witness :
    getRoomCount "s1" (leaveRoom "s1" 0 scenarioHub) = 0
    ∧ getRoomCount "s1" (unregisterClient 0 scenarioHub) = 0 := by
  have h := (claim_C6_rooms_nonempty scenarioHub
    ⟨[Op.reg 0, Op.join "s1" 0], rfl⟩).2 "s1" 0 (by decide)
  exact ⟨h.1, h.2 (by decide)⟩

/-- Claim C7 counterexample: `ActiveConnections` is an `int32`, so a
sequence of 2147483648 Register messages (re-registering the same
client) wraps the counter to -2147483648, while the number of Register
messages minus the number of effective Unregister messages is
2147483648 — the claimed equality fails and the counter is below
zero. -/
theorem claim_C7_counterexample :
    runActive32 (List.replicate 2147483648 (Op.reg 0)) initState 0 = -2147483648
    ∧ countReg (List.replicate 2147483648 (Op.reg 0)) = 2147483648
    ∧ countEffUnreg (List.replicate 2147483648 (Op.reg 0)) initState = 0
    ∧ ((-2147483648 : Int) ≠ 2147483648 - 0)
    ∧ ¬ (0 : Int) ≤ -2147483648 := by
  have hc := countReg_replicate_reg 2147483648 0
  have he := countEffUnreg_replicate_reg 2147483648 0 initState
  refine ⟨?_, hc, he, by decide, by decide⟩
  rw [runActive32_eq, hc, he]
  unfold wrap32
  decide

/-- Claim C7 (amended): along every sequence of control messages
processed from a fresh hub, the `int32` `ActiveConnections` counter
equals the two's-complement reduction of (#Register messages − #Unregister
messages whose argument was registered when processed); in particular,
whenever fewer than 2^31 Register messages occur, the counter equals
that difference exactly and never drops below zero. -/
theorem claim_C7_active_count32 (ops : List Op)
    (hbound : countReg ops < 2147483648) :
    runActive32 ops initState 0 =
      wrap32 (countReg ops - countEffUnreg ops initState)
    ∧ runActive32 ops initState 0 = countReg ops - countEffUnreg ops initState
    ∧ 0 ≤ runActive32 ops initState 0 := by
  have heq := runActive32_eq ops
  have hact := runOps_active ops initState
  have h0 : initState.active = (0 : Int) := rfl
  rw [h0] at hact
  obtain ⟨_, _, hlen⟩ := runOps_wf ops initState initState_wf
  have hz : (0 : Int) ≤ ((runOps ops initState).clients.length : Int) :=
    Int.natCast_nonneg _
  have hnn : 0 ≤ countReg ops - countEffUnreg ops initState := by linarith
  have heffnn := countEffUnreg_nonneg ops initState
  have hfix : wrap32 (countReg ops - countEffUnreg ops initState)
      = countReg ops - countEffUnreg ops initState :=
    wrap32_fixed (by linarith) (by linarith)
  refine ⟨heq, heq.trans hfix, ?_⟩
  rw [heq, hfix]
  exact hnn

/-- Witness for `claim_C7_active_count32` on a concrete short sequence:
two registers and one effective unregister leave the counter at 1. -/
theorem claim_C7_witness :
    countReg [Op.reg 0, Op.reg 1, Op.unreg 0] < 2147483648
    ∧ runActive32 [Op.reg 0, Op.reg 1, Op.unreg 0] initState 0
        = countReg [Op.reg 0, Op.reg 1, Op.unreg 0]
          - countEffUnreg [Op.reg 0, Op.reg 1, Op.unreg 0] initState
    ∧ 0 ≤ runActive32 [Op.reg 0, Op.reg 1, Op.unreg 0] initState 0 := by
  have hb : countReg [Op.reg 0, Op.reg 1, Op.unreg 0] < 2147483648 := by decide
  have h := claim_C7_active_count32 [Op.reg 0, Op.reg 1, Op.unreg 0] hb
  exact ⟨hb, h.2.1, h.2.2⟩

/-- Claim C8: in every reachable state, immediately after
`JoinRoom(R, C)` the queries `IsInRoom(C, R)` and `GetRooms(C)` report
membership, and immediately after `LeaveRoom(R, C)` they do not. -/
theorem claim_C8_membership_queries (s : HubState) (hr : Reachable s)
    (R : String) (c : ClientId) :
    isInRoom (joinRoom R c s) c R = true
    ∧ R ∈ getRooms (joinRoom R c s) c
    ∧ isInRoom (leaveRoom R c s) c R = false
    ∧ R ∉ getRooms (leaveRoom R c s) c := by
  obtain ⟨_, hwf, _⟩ := reachable_wf hr
  have hjoin : R ∈ cacheOf (joinRoom R c s) c := by
    rw [cacheOf_joinRoom, if_pos rfl]
    exact insertSet_self_mem R _
  have hleave : R ∉ cacheOf (leaveRoom R c s) c := by
    show R ∉ cacheOf (removeFromRoom R c s) c
    cases hl : lookupL s.rooms R with
    | none =>
        rw [removeFromRoom_of_none c hl]
        intro hmem
        have hin := (hwf.2 c R).mpr hmem
        rw [members, hl] at hin
        exact List.not_mem_nil c hin
    | some mems =>
        rw [cacheOf_removeFromRoom_some c hl]
        exact not_mem_eraseAll R _
  refine ⟨?_, hjoin, ?_, hleave⟩
  · simp only [isInRoom, decide_eq_true_eq]
    exact hjoin
  · simp only [isInRoom, decide_eq_false_iff_not]
    exact hleave

/-- Witness for `claim_C8_membership_queries` at the concrete reachable
hub with client 0 registered and in room "s1". -/
theorem claim_C8_witness :
    isInRoom (joinRoom "s1" 0 scenarioHub) 0 "s1" = true
    ∧ isInRoom (leaveRoom "s1" 0 scenarioHub) 0 "s1" = false := by
  have h := claim_C8_membership_queries scenarioHub
    ⟨[Op.reg 0, Op.join "s1" 0], rfl⟩ "s1" 0
  exact ⟨h.1, h.2.2.1⟩

/-- Claim C9: the metrics snapshot shares no mutable structure with the
live metrics: its `RoomCounts` cell is a fresh allocation distinct from
the live cell; it equals the live contents at snapshot time; any
subsequent metric-mutating hub operation leaves the snapshot's cell
unchanged; and overwriting the snapshot's cell leaves the live cell
unchanged. -/
theorem claim_C9_metrics_snapshot (h : MetricsLive) (op : MOp)
    (v : List (String × Int)) (hinv : h.liveId < h.store.length) :
    (getMetrics h).1.roomCountsId ≠ h.liveId
    ∧ readCell (getMetrics h).2.store (getMetrics h).1.roomCountsId
        = readCell h.store h.liveId
    ∧ readCell (applyMOp op (getMetrics h).2).store (getMetrics h).1.roomCountsId
        = readCell h.store h.liveId
    ∧ readCell (writeCell (getMetrics h).1.roomCountsId v (getMetrics h).2.store)
        (getMetrics h).2.liveId
        = readCell (getMetrics h).2.store (getMetrics h).2.liveId := by
  have hne : h.store.length ≠ h.liveId := ne_of_gt hinv
  have hbase : readCell (getMetrics h).2.store h.store.length
      = readCell h.store h.liveId :=
    readCell_append_self h.store _
  refine ⟨hne, hbase, ?_, ?_⟩
  · cases op with
    | regFx => exact hbase
    | unregFx => exact hbase
    | bcastFx n t => exact hbase
    | recvFx => exact hbase
    | joinFx room =>
        exact (readCell_writeCell_ne (getMetrics h).2.store h.liveId h.store.length _
          (Ne.symm hne)).trans hbase
    | leaveFx room emptied =>
        exact (readCell_writeCell_ne (getMetrics h).2.store h.liveId h.store.length _
          (Ne.symm hne)).trans hbase
  · exact readCell_writeCell_ne (getMetrics h).2.store h.store.length h.liveId v hne

/-- Witness for `claim_C9_metrics_snapshot` at a concrete live metrics
value and a join effect. -/
theorem claim_C9_witness :
    (getMetrics liveM).1.roomCountsId ≠ liveM.liveId
    ∧ readCell (applyMOp (MOp.joinFx "a") (getMetrics liveM).2).store
        (getMetrics liveM).1.roomCountsId = readCell liveM.store liveM.liveId := by
  have h := claim_C9_metrics_snapshot liveM (MOp.joinFx "a") [] (by decide)
  exact ⟨h.1, h.2.2.1⟩

/-- Claim C10: `BroadcastToRoom` with the empty room name builds the same
message as `BroadcastToAll`, and the fan-out path treats it as a
broadcast to all registered connections, not as a broadcast to an empty
room. -/
theorem claim_C10_empty_room_broadcast (t d : String) (ts : Nat) (s : HubState) :
    broadcastToRoomMsg "" t d ts = broadcastToAllMsg t d ts
    ∧ targetClients (broadcastToRoomMsg "" t d ts) s = s.clients
    ∧ broadcastMessage (broadcastToRoomMsg "" t d ts) s
        = broadcastMessage (broadcastToAllMsg t d ts) s := by
  refine ⟨rfl, ?_, rfl⟩
  unfold targetClients
  rw [if_neg (fun hcon => hcon rfl)]

end StreamHub
